import Mathlib

/-!
Verification development for the multi-lingual voice-agent repository.

The embedding covers the two core source files:
* `express-app/server.js` — the `/voice` booking pipeline (modelled by
  `handleVoice`, which returns the chronological trace of externally visible
  effects together with the terminal outcome of the request), and
* `twilio-functions/stream.js` — the streaming session aggregator (modelled
  by `sessStep`/`runSession` over an explicit event schedule, so that the
  interleaving of sentiment-scoring completions with the close event is
  visible).

External collaborators (database, Redis cache, language detector, translator,
scheduler, Firestore) are modelled as oracle fields of `Env`; configuration
flags (which clients are initialised) are fields of `Config`.  JavaScript
string truthiness (`undefined`/`""` are falsy) is modelled by `truthy` on
`Option String`.
-/

/-- JavaScript truthiness of an optional string: absent and `""` are falsy. -/
def truthy : Option String → Bool
  | none => false
  | some s => s != ""

/-- JavaScript `a || b` on optional strings: `b` when `a` is falsy. -/
def jsOr (a b : Option String) : Option String :=
  if truthy a then a else b

/-- JavaScript `a || d` producing a plain string default. -/
def truthyOr (a : Option String) (d : String) : String :=
  if truthy a then a.getD "" else d

/-- A customer row as selected by `SELECT id, email FROM customers`. -/
structure Customer where
  id : String
  email : String
deriving DecidableEq, Repr

/-- Outcome of the one customer lookup by phone number. -/
inductive DbResult where
  | found (c : Customer)
  | notFound
  | dbError
deriving DecidableEq, Repr

/-- The optional `interaction_result` field of the request body
    (summary produced by the `/stream` function). -/
structure InteractionData where
  transcript : Option String
  detectedLanguage : Option String
  sentiment : Option String
deriving DecidableEq, Repr

/-- The request body fields read by `app.post('/voice')`. -/
structure VoiceRequest where
  caller_id : Option String
  From : Option String
  call_id : Option String
  CallSid : Option String
  duration : Option String
  CallDuration : Option String
  ultravox_transcription : Option String
  SpeechResult : Option String
  interaction_result : Option InteractionData
deriving DecidableEq, Repr

/-- Which capability clients are configured (environment variables set at
    start-up), plus the scheduling policy values. -/
structure Config where
  translationConfigured : Bool
  dbConfigured : Bool
  redisConfigured : Bool
  firestoreConfigured : Bool
  easyConfigured : Bool
  serviceId : String
  duration : Nat
deriving DecidableEq, Repr

/-- A parsed start instant: calendar day index plus local hour/minute, as
    produced by the temporal extractor. -/
structure Instant where
  day : Nat
  hour : Nat
  minute : Nat
deriving DecidableEq, Repr

/-- Per-request oracle for the external collaborators: the lookup result for
    this caller's phone number, the cache content under `lang:<text>`, the
    detection outcome, the translation provider, the chrono parse result, the
    scheduling call outcome and the analytics store outcome. -/
structure Env where
  dbLookup : DbResult
  cacheGet : Option String
  detect : Except Unit String
  translate : String → String → String → Except Unit String
  parse : Option Instant
  schedule : Except Unit Nat
  analyticsOk : Bool

/-- The fields of an analytics record that the claims inspect (the write-time
    server timestamp, numeric duration and raw transcript are not needed by
    any claim and are omitted from the projection). -/
structure AnalyticsRec where
  subscriberEmail : String
  callId : String
  sentiment : String
  detectedLanguage : String
  appointmentBooked : Bool
  appointmentId : Option Nat
  failureReason : Option String
  storeOk : Bool
deriving DecidableEq, Repr

/-- Externally visible effects of one `/voice` request, in chronological
    order.  `respond` is a `res.json`/`res.status(..).json` call carrying a
    `{voiceResponse}` payload; `schedCall` records the appointment request
    sent to Easy!Appointments (same-day `start`/`end` fields as built by the
    code); `analytics` records a Firestore `call_analytics` add. -/
inductive TraceEv where
  | detectCall
  | cacheWrite (key val : String) (ttlSeconds : Nat)
  | translateCall (text sourceLang targetLang : String)
  | schedCall (customerId serviceId : String) (providerId : Nat)
      (startDay startMinutes endDay endMinutes : Nat)
  | respond (status : Nat)
  | analytics (rec : AnalyticsRec)
deriving DecidableEq, Repr

/-- Terminal state of one pipeline invocation. -/
inductive Outcome where
  | missingCaller
  | customerMissing
  | dbFailure
  | notParsed
  | booked
  | bookingFailed
deriving DecidableEq, Repr

/-- `addMinutesToTime` from server.js: adds minutes to an `HH:MM` time.  The
    implementation normalises the overflowed minutes through a `Date` and
    re-renders hour/minute in 24-hour format, i.e. it computes the result
    modulo one day (the explicit fallback branch in the source computes the
    same `% 60` / `% 24` arithmetic); the calendar day is not returned. -/
def addMinutesToTime (hour minute minutesToAdd : Nat) : Nat × Nat :=
  let total := (hour * 60 + minute + minutesToAdd) % 1440
  (total / 60, total % 60)

/-- `translateText(text, sourceLang, targetLang)` from server.js.  Returns the
    (possibly unchanged) text together with whether the translation provider
    was invoked.  `provider` is the oracle for `translationClient.translate`. -/
def translateText (configured : Bool)
    (provider : String → String → String → Except Unit String)
    (text sourceLang targetLang : String) : String × Bool :=
  if configured = false ∨ text = "" ∨ sourceLang = targetLang then
    (text, false)
  else
    match provider text sourceLang targetLang with
    | Except.ok t => (t, true)
    | Except.error _ => (text, true)

/-- Result of the language-detection block of the `/voice` handler. -/
structure ResolveOut where
  lang : String
  detectCalled : Bool
  cacheWrite : Option (String × String × Nat)
deriving DecidableEq, Repr

/-- Section 4 of the `/voice` handler ("Detect Language"): the hint is
    `interactionData?.detectedLanguage`; if it is falsy and there is speech
    text and the translation client is configured, the Redis cache is
    consulted under key `lang:<text>` and, on a miss, the detection provider
    is called, a truthy result being cached for 3600 seconds; a detection
    error falls back to `en`.  Otherwise a falsy hint yields `en`. -/
def resolveLanguage (cfg : Config) (cacheGet : Option String)
    (detectR : Except Unit String) (hint text : Option String) : ResolveOut :=
  if truthy hint = false ∧ truthy text = true ∧ cfg.translationConfigured = true then
    let cached : Option String := if cfg.redisConfigured then cacheGet else none
    if truthy cached then
      { lang := cached.getD "", detectCalled := false, cacheWrite := none }
    else
      match detectR with
      | Except.ok code =>
          { lang := code, detectCalled := true,
            cacheWrite :=
              if cfg.redisConfigured = true ∧ code ≠ "" then
                some ("lang:" ++ text.getD "", code, 3600)
              else none }
      | Except.error _ =>
          { lang := "en", detectCalled := true, cacheWrite := none }
  else if truthy hint = false then
    { lang := "en", detectCalled := false, cacheWrite := none }
  else
    { lang := hint.getD "", detectCalled := false, cacheWrite := none }

/-- The synthetic customer substituted when the database is not configured. -/
def demoCustomer : Customer :=
  { id := "demo_customer", email := "demo@example.com" }

/-- Trace of one `translateText` call site: a provider invocation happened
    exactly when the call was not short-circuited. -/
def translTrace (called : Bool) (text sourceLang targetLang : String) : List TraceEv :=
  if called then [TraceEv.translateCall text sourceLang targetLang] else []

/-- The generic message of the section-8 error handler. -/
def genericErrorText : String :=
  "Sorry, an unexpected error occurred while processing your request."

/-- The section-7e message for a failed date/time parse. -/
def notUnderstoodText : String :=
  "Sorry, I could not understand the date or time you requested. Could you please try again?"

/-- The section-7b confirmation sentence (locale-formatted date/time
    abstracted to a fixed non-empty English sentence). -/
def confirmationText : String :=
  "Okay, your appointment is booked."

/-- The asynchronous Firestore `call_analytics` write, emitted only when the
    Firestore client is configured; `storeOk` records whether the store
    accepted the write (a rejection is caught and logged by the source). -/
def analyticsSeg (cfg : Config) (env : Env) (customer : Customer)
    (callId sentiment lang : String) (booked : Bool) (apptId : Option Nat)
    (failureReason : Option String) : List TraceEv :=
  if cfg.firestoreConfigured then
    [TraceEv.analytics
      { subscriberEmail := customer.email, callId := callId,
        sentiment := sentiment, detectedLanguage := lang,
        appointmentBooked := booked, appointmentId := apptId,
        failureReason := failureReason, storeOk := env.analyticsOk }]
  else []

/-- Sections 5–8 of the `/voice` handler: translate the speech to English if
    needed, parse a start instant, then either book (computing the end time
    with `addMinutesToTime` on the same calendar day) and confirm, or answer
    the not-parsed message; scheduling-layer failures (missing
    Easy!Appointments configuration, scheduler error) fall into the general
    error handler which answers status 500 and records a failure analytics
    record. -/
def bookingStage (cfg : Config) (env : Env) (customer : Customer)
    (lang : String) (speechResult : Option String)
    (sentiment callId : String) : List TraceEv × Outcome :=
  let needTransl : Bool := truthy speechResult && (lang != "en")
  let inputT :=
    if needTransl then
      translateText cfg.translationConfigured env.translate
        (speechResult.getD "") lang "en"
    else (speechResult.getD "", false)
  let textToParse : Option String :=
    if needTransl then some inputT.1 else speechResult
  let tTrace := translTrace inputT.2 (speechResult.getD "") lang "en"
  let appointmentStart : Option Instant :=
    if truthy textToParse then env.parse else none
  match appointmentStart with
  | some a =>
      if cfg.easyConfigured = false then
        let g := translateText cfg.translationConfigured env.translate
          genericErrorText "en" lang
        (tTrace ++ translTrace g.2 genericErrorText "en" lang
           ++ [TraceEv.respond 500]
           ++ analyticsSeg cfg env customer callId sentiment lang false none
                (some "Server error: Easy!Appointments URL or API Key not configured."),
         Outcome.bookingFailed)
      else
        let startMinutes := a.hour * 60 + a.minute
        let endTime := addMinutesToTime a.hour a.minute cfg.duration
        let sched := [TraceEv.schedCall customer.id cfg.serviceId 1
          a.day startMinutes a.day (endTime.1 * 60 + endTime.2)]
        match env.schedule with
        | Except.ok apptId =>
            let c := translateText cfg.translationConfigured env.translate
              confirmationText "en" lang
            (tTrace ++ sched ++ translTrace c.2 confirmationText "en" lang
               ++ [TraceEv.respond 200]
               ++ analyticsSeg cfg env customer callId sentiment lang true
                    (some apptId) none,
             Outcome.booked)
        | Except.error _ =>
            let g := translateText cfg.translationConfigured env.translate
              genericErrorText "en" lang
            (tTrace ++ sched ++ translTrace g.2 genericErrorText "en" lang
               ++ [TraceEv.respond 500]
               ++ analyticsSeg cfg env customer callId sentiment lang false none
                    (some "Server error: scheduling request failed"),
             Outcome.bookingFailed)
  | none =>
      let e := translateText cfg.translationConfigured env.translate
        notUnderstoodText "en" lang
      (tTrace ++ translTrace e.2 notUnderstoodText "en" lang
         ++ [TraceEv.respond 200]
         ++ analyticsSeg cfg env customer callId sentiment lang false none
              (some "Parsing failed"),
       Outcome.notParsed)

/-- Trace of the language-detection block. -/
def resolveTrace (r : ResolveOut) : List TraceEv :=
  (if r.detectCalled then [TraceEv.detectCall] else []) ++
  (match r.cacheWrite with
   | some kvt => [TraceEv.cacheWrite kvt.1 kvt.2.1 kvt.2.2]
   | none => [])

/-- Sections 4–8 of the handler, entered once a customer object exists. -/
def afterCustomer (cfg : Config) (env : Env) (req : VoiceRequest)
    (customer : Customer) : List TraceEv × Outcome :=
  let speechResult := jsOr req.ultravox_transcription req.SpeechResult
  let hint := req.interaction_result.bind (fun d => d.detectedLanguage)
  let sentiment := truthyOr (req.interaction_result.bind (fun d => d.sentiment)) "neutral"
  let callId := truthyOr (jsOr req.call_id req.CallSid) "N/A"
  let r := resolveLanguage cfg env.cacheGet env.detect hint speechResult
  let rest := bookingStage cfg env customer r.lang speechResult sentiment callId
  (resolveTrace r ++ rest.1, rest.2)

/-- The complete `app.post('/voice')` handler: validate the caller identity
    (status 400 when falsy), look the customer up when the database is
    configured (not-found and database-error are terminal, statuses 200 and
    500), substitute the demo customer when it is not, then run the
    language/translation/parsing/booking pipeline. -/
def handleVoice (cfg : Config) (env : Env) (req : VoiceRequest) :
    List TraceEv × Outcome :=
  let phoneNumber := jsOr req.caller_id req.From
  if truthy phoneNumber = false then
    ([TraceEv.respond 400], Outcome.missingCaller)
  else if cfg.dbConfigured then
    match env.dbLookup with
    | DbResult.notFound => ([TraceEv.respond 200], Outcome.customerMissing)
    | DbResult.dbError => ([TraceEv.respond 500], Outcome.dbFailure)
    | DbResult.found c => afterCustomer cfg env req c
  else
    afterCustomer cfg env req demoCustomer

/-- The statuses of the `respond` events of a trace, in order. -/
def respondList (tr : List TraceEv) : List Nat :=
  tr.filterMap fun e =>
    match e with
    | TraceEv.respond s => some s
    | _ => none

/-- The analytics records written along a trace, in order. -/
def analyticsList (tr : List TraceEv) : List AnalyticsRec :=
  tr.filterMap fun e =>
    match e with
    | TraceEv.analytics r => some r
    | _ => none

/-- The `(startDay, startMinutes, endDay, endMinutes)` of each scheduling
    call of a trace. -/
def schedTimes (tr : List TraceEv) : List (Nat × Nat × Nat × Nat) :=
  tr.filterMap fun e =>
    match e with
    | TraceEv.schedCall _ _ _ d1 m1 d2 m2 => some (d1, m1, d2, m2)
    | _ => none

/-- The customer id of each scheduling call of a trace. -/
def schedCusts (tr : List TraceEv) : List String :=
  tr.filterMap fun e =>
    match e with
    | TraceEv.schedCall cid _ _ _ _ _ _ => some cid
    | _ => none

/-- `true` when some analytics write occurs before any response has been
    dispatched. -/
def analyticsBeforeRespond : List TraceEv → Bool
  | [] => false
  | TraceEv.analytics _ :: _ => true
  | TraceEv.respond _ :: _ => false
  | _ :: t => analyticsBeforeRespond t

/-!
Model of `twilio-functions/stream.js`: the session aggregator.
Strings handled by the close-time extraction are modelled as `List Char` so
that the JavaScript `trim`/`split` semantics are explicit.
-/

/-- The character set stripped by `String.prototype.trim` (ECMA-262
    TrimString: WhiteSpace and LineTerminator): TAB, LF, VT, FF, CR, SP,
    NBSP, the Ogham space mark, the U+2000 to U+200A space block, LS, PS,
    the narrow and medium mathematical spaces, the ideographic space and
    ZWNBSP. -/
def isWS (c : Char) : Bool :=
  let n := c.toNat
  n == 0x09 || n == 0x0A || n == 0x0B || n == 0x0C || n == 0x0D ||
  n == 0x20 || n == 0xA0 || n == 0x1680 ||
  (0x2000 ≤ n && n ≤ 0x200A) ||
  n == 0x2028 || n == 0x2029 || n == 0x202F || n == 0x205F ||
  n == 0x3000 || n == 0xFEFF

/-- JavaScript `s.trim()`: strip leading and trailing whitespace. -/
def jsTrim (s : List Char) : List Char :=
  ((s.dropWhile isWS).reverse.dropWhile isWS).reverse

/-- Left-to-right scanner implementing JavaScript `String.prototype.split`
    with a non-empty separator: at each position either the separator matches
    (the accumulated chunk is emitted and the remaining separator characters
    are skipped) or the character joins the current chunk.  `skip` counts
    separator characters still to be consumed after a match. -/
def scanSplit (sep : List Char) : List Char → Nat → List Char → List (List Char)
  | [], _, acc => [acc.reverse]
  | _ :: rest, Nat.succ skip, acc => scanSplit sep rest skip acc
  | c :: rest, 0, acc =>
      if sep.isPrefixOf (c :: rest) then
        acc.reverse :: scanSplit sep rest (sep.length - 1) []
      else
        scanSplit sep rest 0 (c :: acc)

/-- JavaScript `s.split(sep)` for a non-empty `sep`. -/
def jsSplit (sep s : List Char) : List (List Char) :=
  scanSplit sep s 0 []

/-- The separator `"\nReceptionist: "` used by the close handler. -/
def sepR : List Char := "\nReceptionist: ".toList

/-- JavaScript `s.split('\n')[0]`. -/
def firstLine (s : List Char) : List Char :=
  (jsSplit ['\n'] s).headD []

/-- The close handler's last-agent-response extraction:
    `transcript.trim().split('\nReceptionist: ').pop().split('\n')[0]`. -/
def extractLastAgent (transcript : List Char) : List Char :=
  firstLine ((jsSplit sepR (jsTrim transcript)).getLastD [])

/-- The close handler's final sentiment: `neutral` unless at least one score
    was accumulated, in which case the running average is compared against
    the `0.2` thresholds (strictly). -/
def finalSentimentOf (finalSentimentScore : ℚ) (sentimentCount : Nat) : String :=
  if sentimentCount > 0 then
    let avgScore := finalSentimentScore / (sentimentCount : ℚ)
    if avgScore > 1/5 then "positive"
    else if avgScore < -(1/5) then "negative"
    else "neutral"
  else "neutral"

/-- One parsed WebSocket message: caller input, agent text, language. -/
structure Msg where
  input : Option String
  text : Option String
  detectedLanguage : Option String
deriving DecidableEq, Repr

/-- One event-loop step of the session: a message arriving (its handler runs
    up to the sentiment-scoring await), the asynchronous completion of one
    outstanding scoring call (successful with score `q`, or failed), or the
    close event firing. -/
inductive SEvent where
  | msg (m : Msg)
  | scoreDone (q : ℚ)
  | scoreFail
  | closeEv
deriving DecidableEq

/-- The payload passed to `callback` by the close handler. -/
structure Summary where
  text : List Char
  transcript : List Char
  sentiment : String
  detectedLanguage : String
deriving DecidableEq

/-- The mutable state of one streaming session.  `pending` counts scoring
    calls issued but not yet completed; `result` is set exactly when the
    close handler has run. -/
structure SessState where
  transcript : List Char
  detectedLanguage : String
  finalSentimentScore : ℚ
  sentimentCount : Nat
  pending : Nat
  result : Option Summary
deriving DecidableEq

/-- One step of the session event loop, translated from the `message` and
    `close` handlers of stream.js.  A message appends its transcript lines,
    updates the language, and (when it has caller input and the scoring
    capability is configured) issues a scoring call; a scoring completion adds
    its score to the running sum and count; the close event computes the final
    sentiment from the sums accumulated so far and emits the summary.  After
    close the socket is gone and the summary is fixed. -/
def sessStep (apiKeyConfigured : Bool) (s : SessState) (e : SEvent) : SessState :=
  match s.result with
  | some _ => s
  | none =>
    match e with
    | SEvent.msg m =>
        let s1 :=
          if truthy m.input then
            { s with transcript := s.transcript ++
                ("Caller: ".toList ++ (m.input.getD "").toList ++ ['\n']) }
          else s
        let s2 :=
          if truthy m.text then
            { s1 with transcript := s1.transcript ++
                ("Receptionist: ".toList ++ (m.text.getD "").toList ++ ['\n']) }
          else s1
        let s3 :=
          if truthy m.detectedLanguage then
            { s2 with detectedLanguage := m.detectedLanguage.getD "" }
          else s2
        if truthy m.input && apiKeyConfigured then
          { s3 with pending := s3.pending + 1 }
        else s3
    | SEvent.scoreDone q =>
        if s.pending > 0 then
          { s with finalSentimentScore := s.finalSentimentScore + q,
                   sentimentCount := s.sentimentCount + 1,
                   pending := s.pending - 1 }
        else s
    | SEvent.scoreFail =>
        if s.pending > 0 then { s with pending := s.pending - 1 } else s
    | SEvent.closeEv =>
        { s with result := some (
            { text := extractLastAgent s.transcript,
              transcript := s.transcript,
              sentiment := finalSentimentOf s.finalSentimentScore s.sentimentCount,
              detectedLanguage := s.detectedLanguage : Summary }) }

/-- The initial session state of the handler. -/
def initSessState : SessState :=
  { transcript := [], detectedLanguage := "en", finalSentimentScore := 0,
    sentimentCount := 0, pending := 0, result := none }

/-- Run a whole session schedule. -/
def runSession (apiKeyConfigured : Bool) (events : List SEvent) : SessState :=
  events.foldl (sessStep apiKeyConfigured) initSessState

/-- A transcript line: caller or agent, with the utterance text. -/
inductive Line where
  | caller (t : List Char)
  | agent (t : List Char)
deriving DecidableEq, Repr

/-- The rendered line, without its trailing newline. -/
def renderLine : Line → List Char
  | Line.caller t => "Caller: ".toList ++ t
  | Line.agent t => "Receptionist: ".toList ++ t

/-- The utterance text of a line. -/
def textOf : Line → List Char
  | Line.caller t => t
  | Line.agent t => t

/-- Whether a line is an agent line. -/
def isAgent : Line → Bool
  | Line.agent _ => true
  | Line.caller _ => false

/-- The transcript lines produced by a message list (per message: the caller
    line, then the agent line, each only when its field is truthy). -/
def linesOf (msgs : List Msg) : List Line :=
  (msgs.map fun m =>
    (if truthy m.input then [Line.caller (m.input.getD "").toList] else []) ++
    (if truthy m.text then [Line.agent (m.text.getD "").toList] else [])).flatten

/-- The transcript string built from a line list (each line ends in `'\n'`). -/
def joinNL (ls : List Line) : List Char :=
  (ls.map fun l => renderLine l ++ ['\n']).flatten

/-- The tail of the trimmed transcript after a first chunk: each remaining
    line preceded by its `'\n'`. -/
def joinedCont (ls : List Line) : List Char :=
  (ls.map fun l => '\n' :: renderLine l).flatten

/-- The chunk decomposition that `split("\nReceptionist: ")` performs on a
    rendered line list: a new chunk starts at every agent line that is
    preceded by a newline, with its label consumed by the separator.
    (Specification-side companion of `scanSplit`, used to state its
    behaviour on well-formed transcripts.) -/
def splitGoldCont (chunk : List Char) : List Line → List (List Char)
  | [] => [chunk]
  | Line.agent t :: rest => chunk :: splitGoldCont t rest
  | l :: rest => splitGoldCont (chunk ++ '\n' :: renderLine l) rest

/-- Texts for which the close-time extraction is exact: non-empty, free of
    newlines, and not ending in a character that JavaScript `trim` strips
    (so that `trim` does not eat into the final line). -/
def GoodText (t : List Char) : Prop :=
  t ≠ [] ∧ (∀ c ∈ t, c ≠ '\n') ∧ isWS (t.getLastD ' ') = false

/-!
Specification-side definitions: these follow the wording of the claims (not
the source) and are compared against the source-derived model above.
-/

/-- The HTTP status the claims assign to each terminal outcome: 400 for a
    missing caller identity, 500 for an unhandled internal failure (database
    outage, scheduling failure), 200 otherwise. -/
def statusOfOutcome : Outcome → Nat
  | Outcome.missingCaller => 400
  | Outcome.dbFailure => 500
  | Outcome.bookingFailed => 500
  | Outcome.customerMissing => 200
  | Outcome.notParsed => 200
  | Outcome.booked => 200

/-- Whether the lookup found a customer. -/
def isFoundB : DbResult → Bool
  | DbResult.found _ => true
  | _ => false

/-- Claim C1 as stated, at one input: the scheduling call is attempted at
    most once, only when a customer was found by the phone-number lookup and
    a start instant was parsed; a lookup that finds no customer means no
    scheduling call and outcome `customerMissing`. -/
def claimC1At (cfg : Config) (env : Env) (req : VoiceRequest) : Prop :=
  (schedTimes (handleVoice cfg env req).1).length ≤ 1
  ∧ (schedTimes (handleVoice cfg env req).1 ≠ [] →
      cfg.dbConfigured = true ∧ isFoundB env.dbLookup = true ∧ env.parse.isSome = true)
  ∧ (truthy (jsOr req.caller_id req.From) = true →
      cfg.dbConfigured = true → env.dbLookup = DbResult.notFound →
      schedTimes (handleVoice cfg env req).1 = []
      ∧ (handleVoice cfg env req).2 = Outcome.customerMissing)

/-- Claim C3 as stated, at one input (hint presence, speech presence and
    cache hits read with JavaScript truthiness; the cache only exists when
    the Redis client is configured): hint present ⇒ returned unchanged, no
    detection; no text ⇒ `en`; cache hit ⇒ cached code, no detection; else
    detection, whose success is returned and cached for 3600 seconds and
    whose failure yields `en` uncached; the result is never empty. -/
def resolverClaimSpec (cfg : Config) (cacheGet : Option String)
    (detectR : Except Unit String) (hint text : Option String) : Prop :=
  let out := resolveLanguage cfg cacheGet detectR hint text
  (truthy hint = true → out.lang = hint.getD "" ∧ out.detectCalled = false)
  ∧ (truthy hint = false → truthy text = false →
      out.lang = "en" ∧ out.detectCalled = false)
  ∧ (truthy hint = false → truthy text = true →
      cfg.redisConfigured = true → truthy cacheGet = true →
      out.lang = cacheGet.getD "" ∧ out.detectCalled = false)
  ∧ (truthy hint = false → truthy text = true →
      (cfg.redisConfigured = true ∧ truthy cacheGet = true → False) →
      out.detectCalled = true
      ∧ (match detectR with
         | Except.ok c =>
             out.lang = c ∧
             out.cacheWrite =
               (if cfg.redisConfigured then
                  some ("lang:" ++ text.getD "", c, 3600)
                else none)
         | Except.error _ => out.lang = "en" ∧ out.cacheWrite = none))
  ∧ out.lang ≠ ""

/-- The final sentiment as the claim states it: `neutral` for an empty
    sample sequence, otherwise determined by comparing sum/count against the
    0.2 thresholds, the boundary value itself being `neutral`. -/
def claimSentiment (samples : List ℚ) : String :=
  if samples.length = 0 then "neutral"
  else if samples.sum / (samples.length : ℚ) > 1/5 then "positive"
  else if samples.sum / (samples.length : ℚ) < -(1/5) then "negative"
  else "neutral"

/-- A caller-utterance message used to feed one sentiment sample. -/
def scoreMsg : Msg :=
  { input := some "x", text := none, detectedLanguage := none }

/-- The complete schedule for a sample sequence: each utterance's scoring
    call completes before the next event, and the stream closes at the end. -/
def sessionOfScores (scores : List ℚ) : List SEvent :=
  (scores.map fun q => [SEvent.msg scoreMsg, SEvent.scoreDone q]).flatten
    ++ [SEvent.closeEv]

/-!
Concrete instances used by counterexamples and witnesses.
-/

/-- A request with a caller id and speech text, all other fields absent. -/
def baseReq : VoiceRequest :=
  { caller_id := some "+15551234567", From := none,
    call_id := none, CallSid := none, duration := none, CallDuration := none,
    ultravox_transcription := some "book me for tomorrow at ten", SpeechResult := none,
    interaction_result := none }

/-- A fully configured deployment with the default policy values. -/
def baseCfg : Config :=
  { translationConfigured := true, dbConfigured := true,
    redisConfigured := true, firestoreConfigured := true, easyConfigured := true,
    serviceId := "default_service", duration := 30 }

/-- A benign collaborator oracle: customer found, cache miss, detection says
    `en`, translation echoes, parse finds 10:00 on day 3, scheduling accepts. -/
def baseEnv : Env :=
  { dbLookup := DbResult.found { id := "cust_1", email := "c1@example.com" },
    cacheGet := none,
    detect := Except.ok "en",
    translate := fun t _ _ => Except.ok t,
    parse := some { day := 3, hour := 10, minute := 0 },
    schedule := Except.ok 42,
    analyticsOk := true }

/-!
Helper lemmas about traces.
-/

@[simp] theorem respondList_nil : respondList [] = [] := rfl

@[simp] theorem respondList_append (a b : List TraceEv) :
    respondList (a ++ b) = respondList a ++ respondList b := by
  simp [respondList, List.filterMap_append]

@[simp] theorem analyticsList_nil : analyticsList [] = [] := rfl

@[simp] theorem analyticsList_append (a b : List TraceEv) :
    analyticsList (a ++ b) = analyticsList a ++ analyticsList b := by
  simp [analyticsList, List.filterMap_append]

@[simp] theorem schedTimes_nil : schedTimes [] = [] := rfl

@[simp] theorem schedTimes_append (a b : List TraceEv) :
    schedTimes (a ++ b) = schedTimes a ++ schedTimes b := by
  simp [schedTimes, List.filterMap_append]

@[simp] theorem schedCusts_nil : schedCusts [] = [] := rfl

@[simp] theorem schedCusts_append (a b : List TraceEv) :
    schedCusts (a ++ b) = schedCusts a ++ schedCusts b := by
  simp [schedCusts, List.filterMap_append]

@[simp] theorem respondList_translTrace (b : Bool) (x s t : String) :
    respondList (translTrace b x s t) = [] := by
  cases b <;> simp [translTrace, respondList]

@[simp] theorem analyticsList_translTrace (b : Bool) (x s t : String) :
    analyticsList (translTrace b x s t) = [] := by
  cases b <;> simp [translTrace, analyticsList]

@[simp] theorem schedTimes_translTrace (b : Bool) (x s t : String) :
    schedTimes (translTrace b x s t) = [] := by
  cases b <;> simp [translTrace, schedTimes]

@[simp] theorem schedCusts_translTrace (b : Bool) (x s t : String) :
    schedCusts (translTrace b x s t) = [] := by
  cases b <;> simp [translTrace, schedCusts]

@[simp] theorem respondList_analyticsSeg (cfg : Config) (env : Env) (c : Customer)
    (cid s l : String) (b : Bool) (a : Option Nat) (f : Option String) :
    respondList (analyticsSeg cfg env c cid s l b a f) = [] := by
  unfold analyticsSeg; split <;> simp [respondList]

@[simp] theorem schedTimes_analyticsSeg (cfg : Config) (env : Env) (c : Customer)
    (cid s l : String) (b : Bool) (a : Option Nat) (f : Option String) :
    schedTimes (analyticsSeg cfg env c cid s l b a f) = [] := by
  unfold analyticsSeg; split <;> simp [schedTimes]

@[simp] theorem schedCusts_analyticsSeg (cfg : Config) (env : Env) (c : Customer)
    (cid s l : String) (b : Bool) (a : Option Nat) (f : Option String) :
    schedCusts (analyticsSeg cfg env c cid s l b a f) = [] := by
  unfold analyticsSeg; split <;> simp [schedCusts]

theorem analyticsList_analyticsSeg_le (cfg : Config) (env : Env) (c : Customer)
    (cid s l : String) (b : Bool) (a : Option Nat) (f : Option String) :
    (analyticsList (analyticsSeg cfg env c cid s l b a f)).length ≤ 1 := by
  unfold analyticsSeg; split <;> simp [analyticsList]

theorem analyticsList_analyticsSeg_email (cfg : Config) (env : Env) (c : Customer)
    (cid s l : String) (b : Bool) (a : Option Nat) (f : Option String) :
    ∀ r ∈ analyticsList (analyticsSeg cfg env c cid s l b a f),
      r.subscriberEmail = c.email := by
  unfold analyticsSeg; split <;> simp [analyticsList]

@[simp] theorem respondList_resolveTrace (r : ResolveOut) :
    respondList (resolveTrace r) = [] := by
  unfold resolveTrace
  rcases r with ⟨lang, dc, cw⟩
  cases dc <;> cases cw <;> simp [respondList]

@[simp] theorem analyticsList_resolveTrace (r : ResolveOut) :
    analyticsList (resolveTrace r) = [] := by
  unfold resolveTrace
  rcases r with ⟨lang, dc, cw⟩
  cases dc <;> cases cw <;> simp [analyticsList]

@[simp] theorem schedTimes_resolveTrace (r : ResolveOut) :
    schedTimes (resolveTrace r) = [] := by
  unfold resolveTrace
  rcases r with ⟨lang, dc, cw⟩
  cases dc <;> cases cw <;> simp [schedTimes]

@[simp] theorem schedCusts_resolveTrace (r : ResolveOut) :
    schedCusts (resolveTrace r) = [] := by
  unfold resolveTrace
  rcases r with ⟨lang, dc, cw⟩
  cases dc <;> cases cw <;> simp [schedCusts]

theorem analyticsBeforeRespond_append_clean (xs ys : List TraceEv)
    (hr : respondList xs = []) (ha : analyticsList xs = []) :
    analyticsBeforeRespond (xs ++ ys) = analyticsBeforeRespond ys := by
  induction xs with
  | nil => rfl
  | cons e t ih =>
      cases e with
      | detectCall =>
          simp only [List.cons_append, analyticsBeforeRespond]
          exact ih (by simpa [respondList] using hr) (by simpa [analyticsList] using ha)
      | cacheWrite k v ttl =>
          simp only [List.cons_append, analyticsBeforeRespond]
          exact ih (by simpa [respondList] using hr) (by simpa [analyticsList] using ha)
      | translateCall x s tg =>
          simp only [List.cons_append, analyticsBeforeRespond]
          exact ih (by simpa [respondList] using hr) (by simpa [analyticsList] using ha)
      | schedCall a b c d f g h =>
          simp only [List.cons_append, analyticsBeforeRespond]
          exact ih (by simpa [respondList] using hr) (by simpa [analyticsList] using ha)
      | respond s => simp [respondList] at hr
      | analytics r => simp [analyticsList] at ha

@[simp] theorem analyticsBeforeRespond_respond (s : Nat) (ys : List TraceEv) :
    analyticsBeforeRespond (TraceEv.respond s :: ys) = false := rfl

@[simp] theorem respondList_respond_cons (s : Nat) (l : List TraceEv) :
    respondList (TraceEv.respond s :: l) = s :: respondList l := by
  simp [respondList]

@[simp] theorem respondList_sched_cons (cid sid : String) (p d1 m1 d2 m2 : Nat)
    (l : List TraceEv) :
    respondList (TraceEv.schedCall cid sid p d1 m1 d2 m2 :: l) = respondList l := by
  simp [respondList]

@[simp] theorem analyticsList_analytics_cons (r : AnalyticsRec) (l : List TraceEv) :
    analyticsList (TraceEv.analytics r :: l) = r :: analyticsList l := by
  simp [analyticsList]

@[simp] theorem analyticsList_respond_cons (s : Nat) (l : List TraceEv) :
    analyticsList (TraceEv.respond s :: l) = analyticsList l := by
  simp [analyticsList]

@[simp] theorem analyticsList_sched_cons (cid sid : String) (p d1 m1 d2 m2 : Nat)
    (l : List TraceEv) :
    analyticsList (TraceEv.schedCall cid sid p d1 m1 d2 m2 :: l) = analyticsList l := by
  simp [analyticsList]

@[simp] theorem schedTimes_respond_cons (s : Nat) (l : List TraceEv) :
    schedTimes (TraceEv.respond s :: l) = schedTimes l := by
  simp [schedTimes]

@[simp] theorem schedTimes_sched_cons (cid sid : String) (p d1 m1 d2 m2 : Nat)
    (l : List TraceEv) :
    schedTimes (TraceEv.schedCall cid sid p d1 m1 d2 m2 :: l)
      = (d1, m1, d2, m2) :: schedTimes l := by
  simp [schedTimes]

@[simp] theorem schedCusts_respond_cons (s : Nat) (l : List TraceEv) :
    schedCusts (TraceEv.respond s :: l) = schedCusts l := by
  simp [schedCusts]

@[simp] theorem schedCusts_sched_cons (cid sid : String) (p d1 m1 d2 m2 : Nat)
    (l : List TraceEv) :
    schedCusts (TraceEv.schedCall cid sid p d1 m1 d2 m2 :: l)
      = cid :: schedCusts l := by
  simp [schedCusts]

/-!
Branch-shape lemmas for `bookingStage`, `afterCustomer` and `handleVoice`.
-/

theorem bookingStage_respond (cfg : Config) (env : Env) (customer : Customer)
    (lang : String) (speech : Option String) (sentiment callId : String) :
    respondList (bookingStage cfg env customer lang speech sentiment callId).1
      = [statusOfOutcome (bookingStage cfg env customer lang speech sentiment callId).2] := by
  simp only [bookingStage]
  split <;> (try split) <;> (try split) <;>
    simp [statusOfOutcome]

@[simp] theorem analyticsList_analyticsSeg (cfg : Config) (env : Env) (c : Customer)
    (cid s l : String) (b : Bool) (a : Option Nat) (f : Option String) :
    analyticsList (analyticsSeg cfg env c cid s l b a f)
      = if cfg.firestoreConfigured then
          [{ subscriberEmail := c.email, callId := cid, sentiment := s,
             detectedLanguage := l, appointmentBooked := b, appointmentId := a,
             failureReason := f, storeOk := env.analyticsOk }]
        else [] := by
  unfold analyticsSeg; split <;> simp [analyticsList, *]

@[simp] theorem analyticsBeforeRespond_detect_cons (l : List TraceEv) :
    analyticsBeforeRespond (TraceEv.detectCall :: l) = analyticsBeforeRespond l := rfl

@[simp] theorem analyticsBeforeRespond_cache_cons (k v : String) (ttl : Nat)
    (l : List TraceEv) :
    analyticsBeforeRespond (TraceEv.cacheWrite k v ttl :: l)
      = analyticsBeforeRespond l := rfl

@[simp] theorem analyticsBeforeRespond_transl_cons (x s t : String) (l : List TraceEv) :
    analyticsBeforeRespond (TraceEv.translateCall x s t :: l)
      = analyticsBeforeRespond l := rfl

@[simp] theorem analyticsBeforeRespond_sched_cons (cid sid : String)
    (p d1 m1 d2 m2 : Nat) (l : List TraceEv) :
    analyticsBeforeRespond (TraceEv.schedCall cid sid p d1 m1 d2 m2 :: l)
      = analyticsBeforeRespond l := rfl

@[simp] theorem analyticsBeforeRespond_translTrace_append (b : Bool) (x s t : String)
    (ys : List TraceEv) :
    analyticsBeforeRespond (translTrace b x s t ++ ys) = analyticsBeforeRespond ys := by
  cases b <;> simp [translTrace]

theorem bookingStage_abr (cfg : Config) (env : Env) (customer : Customer)
    (lang : String) (speech : Option String) (sentiment callId : String) :
    analyticsBeforeRespond (bookingStage cfg env customer lang speech sentiment callId).1
      = false := by
  simp only [bookingStage]
  split <;> (try split) <;> (try split) <;> simp

theorem bookingStage_analytics_le (cfg : Config) (env : Env) (customer : Customer)
    (lang : String) (speech : Option String) (sentiment callId : String) :
    (analyticsList (bookingStage cfg env customer lang speech sentiment callId).1).length
      ≤ 1 := by
  simp only [bookingStage]
  split <;> (try split) <;> (try split) <;> (simp; try (split <;> simp))

theorem bookingStage_analytics_email (cfg : Config) (env : Env) (customer : Customer)
    (lang : String) (speech : Option String) (sentiment callId : String) :
    ∀ r ∈ analyticsList (bookingStage cfg env customer lang speech sentiment callId).1,
      r.subscriberEmail = customer.email := by
  simp only [bookingStage]
  split <;> (try split) <;> (try split) <;> (simp; try (split <;> simp))

theorem bookingStage_sched_le (cfg : Config) (env : Env) (customer : Customer)
    (lang : String) (speech : Option String) (sentiment callId : String) :
    (schedTimes (bookingStage cfg env customer lang speech sentiment callId).1).length
      ≤ 1 := by
  simp only [bookingStage]
  split <;> (try split) <;> (try split) <;> simp

theorem bookingStage_sched_cust (cfg : Config) (env : Env) (customer : Customer)
    (lang : String) (speech : Option String) (sentiment callId : String) :
    ∀ c ∈ schedCusts (bookingStage cfg env customer lang speech sentiment callId).1,
      c = customer.id := by
  simp only [bookingStage]
  split <;> (try split) <;> (try split) <;> simp

theorem bookingStage_outcome (cfg : Config) (env : Env) (customer : Customer)
    (lang : String) (speech : Option String) (sentiment callId : String) :
    (bookingStage cfg env customer lang speech sentiment callId).2 = Outcome.notParsed
    ∨ (bookingStage cfg env customer lang speech sentiment callId).2 = Outcome.booked
    ∨ (bookingStage cfg env customer lang speech sentiment callId).2 = Outcome.bookingFailed := by
  simp only [bookingStage]
  split <;> (try split) <;> (try split) <;> simp

theorem bookingStage_sched_nonempty (cfg : Config) (env : Env) (customer : Customer)
    (lang : String) (speech : Option String) (sentiment callId : String) :
    schedTimes (bookingStage cfg env customer lang speech sentiment callId).1 ≠ [] →
      env.parse.isSome = true ∧ cfg.easyConfigured = true := by
  simp only [bookingStage]
  split
  case h_1 a heq =>
    have hp : env.parse.isSome = true := by
      rcases hpp : env.parse with _ | a'
      · rw [hpp, ite_self] at heq
        simp at heq
      · simp
    split
    · intro h
      exfalso
      apply h
      simp
    · rename_i hE
      have hE' : cfg.easyConfigured = true := by
        simpa using hE
      split <;> (intro _; exact ⟨hp, hE'⟩)
  case h_2 heq =>
    intro h
    exfalso
    apply h
    simp

theorem afterCustomer_respond (cfg : Config) (env : Env) (req : VoiceRequest)
    (customer : Customer) :
    respondList (afterCustomer cfg env req customer).1
      = [statusOfOutcome (afterCustomer cfg env req customer).2] := by
  simp only [afterCustomer]
  simp [bookingStage_respond]

theorem afterCustomer_abr (cfg : Config) (env : Env) (req : VoiceRequest)
    (customer : Customer) :
    analyticsBeforeRespond (afterCustomer cfg env req customer).1 = false := by
  simp only [afterCustomer]
  rw [analyticsBeforeRespond_append_clean _ _ (by simp) (by simp)]
  exact bookingStage_abr ..

theorem afterCustomer_analytics_le (cfg : Config) (env : Env) (req : VoiceRequest)
    (customer : Customer) :
    (analyticsList (afterCustomer cfg env req customer).1).length ≤ 1 := by
  simp only [afterCustomer]
  simpa using bookingStage_analytics_le ..

theorem afterCustomer_analytics_email (cfg : Config) (env : Env) (req : VoiceRequest)
    (customer : Customer) :
    ∀ r ∈ analyticsList (afterCustomer cfg env req customer).1,
      r.subscriberEmail = customer.email := by
  simp only [afterCustomer]
  intro r hr
  simp only [analyticsList_append, analyticsList_resolveTrace, List.nil_append] at hr
  exact bookingStage_analytics_email cfg env customer _ _ _ _ r hr

theorem afterCustomer_sched_le (cfg : Config) (env : Env) (req : VoiceRequest)
    (customer : Customer) :
    (schedTimes (afterCustomer cfg env req customer).1).length ≤ 1 := by
  simp only [afterCustomer]
  simpa using bookingStage_sched_le ..

theorem afterCustomer_sched_cust (cfg : Config) (env : Env) (req : VoiceRequest)
    (customer : Customer) :
    ∀ c ∈ schedCusts (afterCustomer cfg env req customer).1, c = customer.id := by
  simp only [afterCustomer]
  intro c hc
  simp only [schedCusts_append, schedCusts_resolveTrace, List.nil_append] at hc
  exact bookingStage_sched_cust cfg env customer _ _ _ _ c hc

theorem afterCustomer_sched_nonempty (cfg : Config) (env : Env) (req : VoiceRequest)
    (customer : Customer) :
    schedTimes (afterCustomer cfg env req customer).1 ≠ [] →
      env.parse.isSome = true ∧ cfg.easyConfigured = true := by
  simp only [afterCustomer]
  intro h
  have h2 : schedTimes (bookingStage cfg env customer
      (resolveLanguage cfg env.cacheGet env.detect
        (req.interaction_result.bind fun d => d.detectedLanguage)
        (jsOr req.ultravox_transcription req.SpeechResult)).lang
      (jsOr req.ultravox_transcription req.SpeechResult)
      (truthyOr (req.interaction_result.bind fun d => d.sentiment) "neutral")
      (truthyOr (jsOr req.call_id req.CallSid) "N/A")).1 ≠ [] := by
    intro h3
    exact h (by simp [h3])
  exact bookingStage_sched_nonempty _ _ _ _ _ _ _ h2

theorem afterCustomer_outcome (cfg : Config) (env : Env) (req : VoiceRequest)
    (customer : Customer) :
    (afterCustomer cfg env req customer).2 = Outcome.notParsed
    ∨ (afterCustomer cfg env req customer).2 = Outcome.booked
    ∨ (afterCustomer cfg env req customer).2 = Outcome.bookingFailed := by
  simp only [afterCustomer]
  exact bookingStage_outcome ..

theorem bookingStage_outcome_storeOk (cfg : Config) (env : Env) (customer : Customer)
    (lang : String) (speech : Option String) (sentiment callId : String) (b : Bool) :
    (bookingStage cfg { env with analyticsOk := b } customer lang speech sentiment callId).2
      = (bookingStage cfg env customer lang speech sentiment callId).2 := by
  obtain ⟨dl, cg, det, tr, pr, sch, ao⟩ := env
  simp only [bookingStage]
  try dsimp only
  split <;> (try split) <;> (try split) <;> rfl

theorem afterCustomer_outcome_storeOk (cfg : Config) (env : Env) (req : VoiceRequest)
    (customer : Customer) (b : Bool) :
    (afterCustomer cfg { env with analyticsOk := b } req customer).2
      = (afterCustomer cfg env req customer).2 := by
  simp only [afterCustomer]
  try dsimp only
  exact bookingStage_outcome_storeOk ..

theorem afterCustomer_respond_storeOk (cfg : Config) (env : Env) (req : VoiceRequest)
    (customer : Customer) (b : Bool) :
    respondList (afterCustomer cfg { env with analyticsOk := b } req customer).1
      = respondList (afterCustomer cfg env req customer).1 := by
  rw [afterCustomer_respond, afterCustomer_respond, afterCustomer_outcome_storeOk]

theorem handleVoice_respond (cfg : Config) (env : Env) (req : VoiceRequest) :
    respondList (handleVoice cfg env req).1
      = [statusOfOutcome (handleVoice cfg env req).2] := by
  simp only [handleVoice]
  split
  · simp [statusOfOutcome]
  · split
    · split <;> (first | exact afterCustomer_respond .. | simp [statusOfOutcome])
    · exact afterCustomer_respond ..

theorem handleVoice_abr (cfg : Config) (env : Env) (req : VoiceRequest) :
    analyticsBeforeRespond (handleVoice cfg env req).1 = false := by
  simp only [handleVoice]
  split
  · rfl
  · split
    · split <;> (first | rfl | exact afterCustomer_abr ..)
    · exact afterCustomer_abr ..

theorem handleVoice_analytics_le (cfg : Config) (env : Env) (req : VoiceRequest) :
    (analyticsList (handleVoice cfg env req).1).length ≤ 1 := by
  simp only [handleVoice]
  split
  · simp
  · split
    · split <;> (first | exact afterCustomer_analytics_le .. | simp)
    · exact afterCustomer_analytics_le ..

theorem handleVoice_sched_le (cfg : Config) (env : Env) (req : VoiceRequest) :
    (schedTimes (handleVoice cfg env req).1).length ≤ 1 := by
  simp only [handleVoice]
  split
  · simp
  · split
    · split <;> (first | exact afterCustomer_sched_le .. | simp)
    · exact afterCustomer_sched_le ..

theorem handleVoice_sched_nonempty (cfg : Config) (env : Env) (req : VoiceRequest) :
    schedTimes (handleVoice cfg env req).1 ≠ [] →
      env.parse.isSome = true
      ∧ (cfg.dbConfigured = true → isFoundB env.dbLookup = true) := by
  simp only [handleVoice]
  split
  · intro h; exact absurd rfl h
  · rename_i hph
    split
    · rename_i hdb
      split
      · intro h; exact absurd rfl h
      · intro h; exact absurd rfl h
      · rename_i c hfound
        intro h
        refine ⟨(afterCustomer_sched_nonempty _ _ _ _ h).1, fun _ => ?_⟩
        rw [hfound]; rfl
    · rename_i hdb
      intro h
      refine ⟨(afterCustomer_sched_nonempty _ _ _ _ h).1, fun hdb' => ?_⟩
      exact absurd hdb' (by simpa using hdb)

theorem handleVoice_lookup_notFound (cfg : Config) (env : Env) (req : VoiceRequest)
    (hph : truthy (jsOr req.caller_id req.From) = true)
    (hdb : cfg.dbConfigured = true) (hnf : env.dbLookup = DbResult.notFound) :
    handleVoice cfg env req = ([TraceEv.respond 200], Outcome.customerMissing) := by
  simp [handleVoice, hph, hdb, hnf]

theorem handleVoice_outcome_missing (cfg : Config) (env : Env) (req : VoiceRequest) :
    (handleVoice cfg env req).2 = Outcome.missingCaller
      ↔ truthy (jsOr req.caller_id req.From) = false := by
  simp only [handleVoice]
  split
  · rename_i hph
    simp [hph]
  · rename_i hph
    constructor
    · intro h
      exfalso
      revert h
      split
      · split <;> (intro h; first
          | exact Outcome.noConfusion h
          | rcases afterCustomer_outcome cfg env req _ with ho | ho | ho <;>
              (rw [h] at ho; exact Outcome.noConfusion ho))
      · intro h
        rcases afterCustomer_outcome cfg env req demoCustomer with ho | ho | ho <;>
          (rw [h] at ho; exact Outcome.noConfusion ho)
    · intro h
      exact absurd h (by simpa using hph)

theorem handleVoice_noDb (cfg : Config) (env : Env) (req : VoiceRequest)
    (hdb : cfg.dbConfigured = false)
    (hph : truthy (jsOr req.caller_id req.From) = true) :
    handleVoice cfg env req = afterCustomer cfg env req demoCustomer := by
  simp [handleVoice, hph, hdb]

theorem handleVoice_storeOk (cfg : Config) (env : Env) (req : VoiceRequest) (b : Bool) :
    respondList (handleVoice cfg { env with analyticsOk := b } req).1
        = respondList (handleVoice cfg env req).1
    ∧ (handleVoice cfg { env with analyticsOk := b } req).2
        = (handleVoice cfg env req).2 := by
  simp only [handleVoice]
  try dsimp only
  split
  · exact ⟨rfl, rfl⟩
  · split
    · split <;> (first
        | exact ⟨rfl, rfl⟩
        | exact ⟨afterCustomer_respond_storeOk .., afterCustomer_outcome_storeOk ..⟩)
    · exact ⟨afterCustomer_respond_storeOk .., afterCustomer_outcome_storeOk ..⟩

/-!
Claim theorems.
-/

/-- Claim C1 (amended): for every `/voice` request the scheduling call is
    attempted at most once, and only when a start instant was parsed and —
    when the customer directory is configured — the phone-number lookup found
    a customer (when the directory is not configured the demo customer is
    substituted instead of a lookup); and for every request carrying a caller
    id whose lookup finds no customer, no scheduling call is made and the
    outcome is `customerMissing`. -/
theorem claim_C1 (cfg : Config) (env : Env) (req : VoiceRequest) :
    (schedTimes (handleVoice cfg env req).1).length ≤ 1
    ∧ (schedTimes (handleVoice cfg env req).1 ≠ [] →
        env.parse.isSome = true
        ∧ (cfg.dbConfigured = true → isFoundB env.dbLookup = true))
    ∧ (truthy (jsOr req.caller_id req.From) = true →
        cfg.dbConfigured = true → env.dbLookup = DbResult.notFound →
        schedTimes (handleVoice cfg env req).1 = []
        ∧ (handleVoice cfg env req).2 = Outcome.customerMissing) := by
  refine ⟨handleVoice_sched_le cfg env req, handleVoice_sched_nonempty cfg env req, ?_⟩
  intro hph hdb hnf
  rw [handleVoice_lookup_notFound cfg env req hph hdb hnf]
  exact ⟨rfl, rfl⟩

/-- Claim C1, counterexample to the claim as stated: with the customer
    directory not configured, a scheduling call is made (for the substituted
    demo customer) although no customer was found by phone-number lookup. -/
theorem claim_C1_cex :
    ¬ claimC1At { baseCfg with dbConfigured := false } baseEnv baseReq := by
  intro h
  exact absurd (h.2.1 (by decide)).1 (by decide)

/-- Claim C1, witness: a configured directory whose lookup finds nobody
    yields no scheduling call and the `customerMissing` outcome. -/
theorem claim_C1_witness :
    schedTimes (handleVoice baseCfg { baseEnv with dbLookup := DbResult.notFound } baseReq).1 = []
    ∧ (handleVoice baseCfg { baseEnv with dbLookup := DbResult.notFound } baseReq).2
        = Outcome.customerMissing :=
  (claim_C1 baseCfg { baseEnv with dbLookup := DbResult.notFound } baseReq).2.2
    (by decide) rfl rfl

/-- Claim C2: every `/voice` request produces exactly one `{voiceResponse}`
    payload, with status 400 exactly when the caller identity is falsy, 500
    for the internal-failure outcomes (database outage, scheduling failure),
    and 200 for the not-found, not-parsed and booked outcomes. -/
theorem claim_C2 (cfg : Config) (env : Env) (req : VoiceRequest) :
    respondList (handleVoice cfg env req).1
        = [statusOfOutcome (handleVoice cfg env req).2]
    ∧ ((handleVoice cfg env req).2 = Outcome.missingCaller
        ↔ truthy (jsOr req.caller_id req.From) = false) :=
  ⟨handleVoice_respond .., handleVoice_outcome_missing ..⟩

/-- Claim C5 (code bug): for a parsed start of 23:50 and the default
    30-minute duration, the appointment request sent to the scheduler has
    end time 00:20 on the same calendar day — `addMinutesToTime` wraps
    modulo one day and the code reuses the start date — so the end instant
    is not start + 30 minutes. -/
theorem claim_C5_bug :
    schedTimes (handleVoice baseCfg
        { baseEnv with parse := some ({ day := 5, hour := 23, minute := 50 : Instant }) }
        baseReq).1
      = [(5, 23 * 60 + 50, 5, 20)]
    ∧ addMinutesToTime 23 50 30 = (0, 20)
    ∧ 5 * 1440 + 20 ≠ (5 * 1440 + (23 * 60 + 50)) + 30 := by
  decide

/-- Claim C6: at most one analytics record is written per request, never
    before the response has been dispatched, and the analytics store's
    accept/reject outcome has no effect on the responses or on the terminal
    outcome of the request. -/
theorem claim_C6 (cfg : Config) (env : Env) (req : VoiceRequest) (b : Bool) :
    (analyticsList (handleVoice cfg env req).1).length ≤ 1
    ∧ analyticsBeforeRespond (handleVoice cfg env req).1 = false
    ∧ respondList (handleVoice cfg { env with analyticsOk := b } req).1
        = respondList (handleVoice cfg env req).1
    ∧ (handleVoice cfg { env with analyticsOk := b } req).2
        = (handleVoice cfg env req).2 :=
  ⟨handleVoice_analytics_le .., handleVoice_abr ..,
   (handleVoice_storeOk ..).1, (handleVoice_storeOk ..).2⟩

/-- Claim C7: `translateText` returns its input unchanged with no provider
    invocation when source equals target, when the text is empty, or when
    the capability is not configured; and on provider failure it returns the
    original text (after one provider invocation) instead of raising. -/
theorem claim_C7 (configured : Bool)
    (provider : String → String → String → Except Unit String) (text s t : String) :
    translateText configured provider text s s = (text, false)
    ∧ translateText configured provider "" s t = ("", false)
    ∧ translateText false provider text s t = (text, false)
    ∧ (text ≠ "" → s ≠ t → provider text s t = Except.error () →
        translateText true provider text s t = (text, true)) := by
  refine ⟨by simp [translateText], by simp [translateText], by simp [translateText], ?_⟩
  intro h1 h2 h3
  simp [translateText, h1, h2, h3]

/-- Claim C7, witness: a failing provider leaves the text unchanged. -/
theorem claim_C7_witness :
    translateText true (fun _ _ _ => Except.error ()) "hola" "es" "en" = ("hola", true) :=
  (claim_C7 true (fun _ _ _ => Except.error ()) "hola" "es" "en").2.2.2
    (by decide) (by decide) rfl

/-- Claim C10: with the customer directory not configured, a request with a
    caller id is not rejected: it proceeds through time extraction and
    booking, every scheduling call is attributed to the synthetic customer
    `demo_customer`, and every analytics record to `demo@example.com`. -/
theorem claim_C10 (cfg : Config) (env : Env) (req : VoiceRequest)
    (hdb : cfg.dbConfigured = false)
    (hph : truthy (jsOr req.caller_id req.From) = true) :
    ((handleVoice cfg env req).2 = Outcome.notParsed
      ∨ (handleVoice cfg env req).2 = Outcome.booked
      ∨ (handleVoice cfg env req).2 = Outcome.bookingFailed)
    ∧ (∀ c ∈ schedCusts (handleVoice cfg env req).1, c = "demo_customer")
    ∧ (∀ r ∈ analyticsList (handleVoice cfg env req).1,
        r.subscriberEmail = "demo@example.com") := by
  rw [handleVoice_noDb cfg env req hdb hph]
  exact ⟨afterCustomer_outcome cfg env req demoCustomer,
    afterCustomer_sched_cust cfg env req demoCustomer,
    afterCustomer_analytics_email cfg env req demoCustomer⟩

/-- Claim C10, witness: the demo-customer pipeline books an appointment for
    `demo_customer` when the directory is not configured. -/
theorem claim_C10_witness :
    ((handleVoice { baseCfg with dbConfigured := false } baseEnv baseReq).2 = Outcome.notParsed
      ∨ (handleVoice { baseCfg with dbConfigured := false } baseEnv baseReq).2 = Outcome.booked
      ∨ (handleVoice { baseCfg with dbConfigured := false } baseEnv baseReq).2 = Outcome.bookingFailed)
    ∧ (∀ c ∈ schedCusts (handleVoice { baseCfg with dbConfigured := false } baseEnv baseReq).1,
        c = "demo_customer")
    ∧ (∀ r ∈ analyticsList (handleVoice { baseCfg with dbConfigured := false } baseEnv baseReq).1,
        r.subscriberEmail = "demo@example.com") :=
  claim_C10 { baseCfg with dbConfigured := false } baseEnv baseReq rfl (by decide)

theorem truthy_getD_ne (o : Option String) (h : truthy o = true) : o.getD "" ≠ "" := by
  cases o with
  | none => simp [truthy] at h
  | some s =>
      simp only [truthy, bne_iff_ne, ne_eq] at h
      simpa using h

theorem resolveLanguage_hint (cfg : Config) (cacheGet : Option String)
    (detectR : Except Unit String) (hint text : Option String)
    (h : truthy hint = true) :
    resolveLanguage cfg cacheGet detectR hint text
      = { lang := hint.getD "", detectCalled := false, cacheWrite := none } := by
  simp [resolveLanguage, h]

theorem resolveLanguage_noText (cfg : Config) (cacheGet : Option String)
    (detectR : Except Unit String) (hint text : Option String)
    (hh : truthy hint = false) (ht : truthy text = false) :
    resolveLanguage cfg cacheGet detectR hint text
      = { lang := "en", detectCalled := false, cacheWrite := none } := by
  simp [resolveLanguage, hh, ht]

theorem resolveLanguage_noClient (cfg : Config) (cacheGet : Option String)
    (detectR : Except Unit String) (hint text : Option String)
    (hc : cfg.translationConfigured = false) (hh : truthy hint = false) :
    resolveLanguage cfg cacheGet detectR hint text
      = { lang := "en", detectCalled := false, cacheWrite := none } := by
  simp [resolveLanguage, hc, hh]

theorem resolveLanguage_cacheHit (cfg : Config) (cacheGet : Option String)
    (detectR : Except Unit String) (hint text : Option String)
    (hh : truthy hint = false) (ht : truthy text = true)
    (hc : cfg.translationConfigured = true)
    (hr : cfg.redisConfigured = true) (hg : truthy cacheGet = true) :
    resolveLanguage cfg cacheGet detectR hint text
      = { lang := cacheGet.getD "", detectCalled := false, cacheWrite := none } := by
  simp [resolveLanguage, hh, ht, hc, hr, hg]

theorem resolveLanguage_detect (cfg : Config) (cacheGet : Option String)
    (detectR : Except Unit String) (hint text : Option String)
    (hh : truthy hint = false) (ht : truthy text = true)
    (hc : cfg.translationConfigured = true)
    (hmiss : (if cfg.redisConfigured then cacheGet else none) = none ∨
             truthy (if cfg.redisConfigured then cacheGet else none) = false) :
    resolveLanguage cfg cacheGet detectR hint text
      = match detectR with
        | Except.ok code =>
            { lang := code, detectCalled := true,
              cacheWrite :=
                if cfg.redisConfigured = true ∧ code ≠ "" then
                  some ("lang:" ++ text.getD "", code, 3600)
                else none }
        | Except.error _ =>
            { lang := "en", detectCalled := true, cacheWrite := none } := by
  have hm : truthy (if cfg.redisConfigured then cacheGet else none) = false := by
    rcases hmiss with h | h
    · rw [h]; rfl
    · exact h
  simp [resolveLanguage, hh, ht, hc, hm]

/-- Claim C3 (amended): the stated resolver precedence holds whenever the
    detection capability (translation client) is configured and a successful
    detection never returns an empty code; a present hint is returned
    unchanged and an absent hint with no speech text yields `en`
    unconditionally; but when the capability is not configured, `en` is
    returned without consulting the cache or the detection provider. -/
theorem claim_C3 (cfg : Config) (cacheGet : Option String)
    (detectR : Except Unit String) (hint text : Option String) :
    (truthy hint = true →
      resolveLanguage cfg cacheGet detectR hint text
        = { lang := hint.getD "", detectCalled := false, cacheWrite := none })
    ∧ (truthy hint = false → truthy text = false →
      resolveLanguage cfg cacheGet detectR hint text
        = { lang := "en", detectCalled := false, cacheWrite := none })
    ∧ (cfg.translationConfigured = true → detectR ≠ Except.ok "" →
        resolverClaimSpec cfg cacheGet detectR hint text)
    ∧ (cfg.translationConfigured = false → truthy hint = false →
      resolveLanguage cfg cacheGet detectR hint text
        = { lang := "en", detectCalled := false, cacheWrite := none }) := by
  refine ⟨resolveLanguage_hint cfg cacheGet detectR hint text,
          resolveLanguage_noText cfg cacheGet detectR hint text, ?_,
          fun hc hh => resolveLanguage_noClient cfg cacheGet detectR hint text hc hh⟩
  intro hc hne
  unfold resolverClaimSpec
  refine ⟨?_, ?_, ?_, ?_, ?_⟩
  · intro hh
    rw [resolveLanguage_hint cfg cacheGet detectR hint text hh]
    exact ⟨rfl, rfl⟩
  · intro hh ht
    rw [resolveLanguage_noText cfg cacheGet detectR hint text hh ht]
    exact ⟨rfl, rfl⟩
  · intro hh ht hr hg
    rw [resolveLanguage_cacheHit cfg cacheGet detectR hint text hh ht hc hr hg]
    exact ⟨rfl, rfl⟩
  · intro hh ht hnh
    have hmiss : truthy (if cfg.redisConfigured then cacheGet else none) = false := by
      by_cases hr : cfg.redisConfigured
      · rw [if_pos hr]
        by_cases hg : truthy cacheGet = true
        · exact absurd ⟨by simpa using hr, hg⟩ hnh
        · simpa using hg
      · rw [if_neg hr]; rfl
    rw [resolveLanguage_detect cfg cacheGet detectR hint text hh ht hc (Or.inr hmiss)]
    cases detectR with
    | ok code =>
        have hcode : code ≠ "" := by
          intro hcc
          exact hne (by rw [hcc])
        refine ⟨rfl, rfl, ?_⟩
        by_cases hr : cfg.redisConfigured = true
        · simp [hr, hcode]
        · simp [hr]
    | error e => exact ⟨rfl, rfl, rfl⟩
  · by_cases hh : truthy hint = true
    · rw [resolveLanguage_hint cfg cacheGet detectR hint text hh]
      exact truthy_getD_ne hint hh
    · have hh' : truthy hint = false := by simpa using hh
      by_cases ht : truthy text = true
      · by_cases hhit : cfg.redisConfigured = true ∧ truthy cacheGet = true
        · rw [resolveLanguage_cacheHit cfg cacheGet detectR hint text hh' ht hc hhit.1 hhit.2]
          exact truthy_getD_ne cacheGet hhit.2
        · have hmiss : truthy (if cfg.redisConfigured then cacheGet else none) = false := by
            by_cases hr : cfg.redisConfigured
            · rw [if_pos hr]
              by_cases hg : truthy cacheGet = true
              · exact absurd ⟨by simpa using hr, hg⟩ hhit
              · simpa using hg
            · rw [if_neg hr]; rfl
          rw [resolveLanguage_detect cfg cacheGet detectR hint text hh' ht hc (Or.inr hmiss)]
          cases detectR with
          | ok code =>
              have hcode : code ≠ "" := fun hcc => hne (by rw [hcc])
              simpa using hcode
          | error e => simp
      · have ht' : truthy text = false := by simpa using ht
        rw [resolveLanguage_noText cfg cacheGet detectR hint text hh' ht']
        simp

/-- Claim C3, counterexample to the claim as stated: with the translation
    client not configured, a present cache entry for the speech text is
    ignored and `en` is returned, not the cached code. -/
theorem claim_C3_cex :
    ¬ resolverClaimSpec { baseCfg with translationConfigured := false }
        (some "fr") (Except.ok "fr") none (some "bonjour") := by
  intro h
  have h3 := h.2.2.1 rfl rfl rfl rfl
  exact absurd h3.1 (by decide)

/-- Claim C3, witness: with a configured client and a non-empty detection
    result, the stated precedence holds. -/
theorem claim_C3_witness :
    resolverClaimSpec baseCfg none (Except.ok "fr") none (some "hola") :=
  (claim_C3 baseCfg none (Except.ok "fr") none (some "hola")).2.2.1 rfl
    (by intro h; injection h with h; exact absurd h (by decide))

theorem sessionOfScores_run (scores : List ℚ) :
    ∀ (s : SessState), s.result = none →
    (List.foldl (sessStep true) s (sessionOfScores scores)).result.map Summary.sentiment
      = some (finalSentimentOf (s.finalSentimentScore + scores.sum)
          (s.sentimentCount + scores.length)) := by
  induction scores with
  | nil =>
      intro s h
      simp [sessionOfScores, sessStep, h]
  | cons q rest ih =>
      intro s h
      have h1 : sessionOfScores (q :: rest)
          = SEvent.msg scoreMsg :: SEvent.scoreDone q :: sessionOfScores rest := by
        simp [sessionOfScores]
      rw [h1]
      simp only [List.foldl_cons]
      have hs2 : sessStep true (sessStep true s (SEvent.msg scoreMsg)) (SEvent.scoreDone q)
          = { s with
              transcript := s.transcript ++ ("Caller: ".toList ++ "x".toList ++ ['\n']),
              finalSentimentScore := s.finalSentimentScore + q,
              sentimentCount := s.sentimentCount + 1 } := by
        simp [sessStep, h, scoreMsg, truthy]
      rw [hs2, ih _ (by simp [h])]
      congr 2
      · simp only [List.sum_cons]
        ring
      · simp only [List.length_cons]
        omega

/-- Claim C4: for every finite sequence of sentiment samples, the sentiment
    the close handler computes equals the claim's specification: `neutral`
    for no samples, otherwise strict comparison of sum/count against 0.2 —
    an average of exactly 0.2 is `neutral`. -/
theorem claim_C4 (scores : List ℚ) :
    ((runSession true (sessionOfScores scores)).result).map Summary.sentiment
      = some (claimSentiment scores) := by
  rw [runSession, sessionOfScores_run scores initSessState rfl]
  congr 1
  show finalSentimentOf (0 + scores.sum) (0 + scores.length) = claimSentiment scores
  rw [zero_add, Nat.zero_add]
  unfold finalSentimentOf claimSentiment
  rcases Nat.eq_zero_or_pos scores.length with hz | hp
  · simp [hz]
  · rw [if_pos hp, if_neg (show ¬ scores.length = 0 by omega)]

/-- Claim C8 (code bug): when the close event fires while a scoring call is
    still outstanding, the close handler finalises immediately on the partial
    sum — a single caller utterance scored 0.9 whose scoring promise
    resolves after the close yields `neutral`, while waiting for the score
    would yield `positive`. -/
theorem claim_C8_bug :
    ((runSession true [SEvent.msg scoreMsg, SEvent.closeEv,
        SEvent.scoreDone (9/10)]).result).map Summary.sentiment
      = some "neutral"
    ∧ (runSession true [SEvent.msg scoreMsg]).pending = 1
    ∧ finalSentimentOf (9/10) 1 = "positive" := by
  refine ⟨?_, ?_, ?_⟩
  · decide
  · decide
  · simp only [finalSentimentOf]
    norm_num

/-!
Lemmas for the close-time last-agent-line extraction (claim C9).
-/

theorem sepR_cons : sepR = '\n' :: "Receptionist: ".toList := by decide

theorem sepR_not_prefix_of_ne (c : Char) (z : List Char) (h : c ≠ '\n') :
    sepR.isPrefixOf (c :: z) = false := by
  rw [sepR_cons]
  show (('\n' == c) && ("Receptionist: ".toList.isPrefixOf z)) = false
  have h1 : ('\n' == c) = false := beq_eq_false_iff_ne.mpr (Ne.symm h)
  simp [h1]

theorem sepR_not_prefix_caller (z : List Char) :
    sepR.isPrefixOf ('\n' :: 'C' :: z) = false := by
  rw [sepR_cons]
  show (('\n' == '\n') && ("Receptionist: ".toList.isPrefixOf ('C' :: z))) = false
  have : "Receptionist: ".toList = 'R' :: "eceptionist: ".toList := by decide
  rw [this]
  simp [List.isPrefixOf]

theorem isPrefixOf_append_self (s z : List Char) : s.isPrefixOf (s ++ z) = true := by
  induction s with
  | nil => cases z <;> rfl
  | cons a as ih =>
      show ((a == a) && (as.isPrefixOf (as ++ z))) = true
      simp [ih]

theorem scanSplit_skip (sep : List Char) (z : List Char) :
    ∀ (y acc : List Char), scanSplit sep (z ++ y) z.length acc = scanSplit sep y 0 acc := by
  induction z with
  | nil => intro y acc; rfl
  | cons c rest ih =>
      intro y acc
      simp only [List.cons_append, List.length_cons]
      rw [show rest.length + 1 = Nat.succ rest.length from rfl]
      simp only [scanSplit]
      exact ih y acc

theorem scanSplit_step_ne (c : Char) (z acc : List Char)
    (h : sepR.isPrefixOf (c :: z) = false) :
    scanSplit sepR (c :: z) 0 acc = scanSplit sepR z 0 (c :: acc) := by
  rw [scanSplit]
  simp [h]

theorem scanSplit_consume (y acc : List Char) :
    scanSplit sepR (sepR ++ y) 0 acc = acc.reverse :: scanSplit sepR y 0 [] := by
  have hpre : sepR.isPrefixOf (sepR ++ y) = true := isPrefixOf_append_self sepR y
  rw [sepR_cons, List.cons_append] at hpre
  rw [sepR_cons, List.cons_append, scanSplit]
  simp only [hpre, if_true]
  have hlen : ('\n' :: "Receptionist: ".toList).length - 1
      = ("Receptionist: ".toList).length := by simp
  rw [hlen,
    scanSplit_skip ('\n' :: "Receptionist: ".toList) "Receptionist: ".toList y []]

theorem scanSplit_noNL (x : List Char) :
    ∀ (y acc : List Char), (∀ c ∈ x, c ≠ '\n') →
    scanSplit sepR (x ++ y) 0 acc = scanSplit sepR y 0 (x.reverse ++ acc) := by
  induction x with
  | nil => intro y acc _; simp
  | cons c rest ih =>
      intro y acc h
      have hc : c ≠ '\n' := h c (List.mem_cons_self c rest)
      rw [List.cons_append,
        scanSplit_step_ne c (rest ++ y) acc (sepR_not_prefix_of_ne c _ hc),
        ih y (c :: acc) (fun d hd => h d (List.mem_cons_of_mem c hd))]
      simp

@[simp] theorem joinedCont_nil : joinedCont [] = [] := rfl

theorem joinedCont_cons (l : Line) (ls : List Line) :
    joinedCont (l :: ls) = '\n' :: (renderLine l ++ joinedCont ls) := by
  simp [joinedCont]

theorem renderLine_ne_nil (l : Line) : renderLine l ≠ [] := by
  cases l <;> simp [renderLine]

theorem renderLine_noNL (l : Line) (h : ∀ c ∈ textOf l, c ≠ '\n') :
    ∀ c ∈ renderLine l, c ≠ '\n' := by
  cases l with
  | caller t =>
      intro c hc
      rcases List.mem_append.mp hc with hlab | hmem
      · intro hcc
        subst hcc
        revert hlab
        decide
      · exact h c hmem
  | agent t =>
      intro c hc
      rcases List.mem_append.mp hc with hlab | hmem
      · intro hcc
        subst hcc
        revert hlab
        decide
      · exact h c hmem

theorem scanSplit_joinedCont (ls : List Line) :
    ∀ (chunk : List Char), (∀ l ∈ ls, ∀ c ∈ textOf l, c ≠ '\n') →
    scanSplit sepR (joinedCont ls) 0 chunk.reverse = splitGoldCont chunk ls := by
  induction ls with
  | nil =>
      intro chunk _
      show scanSplit sepR [] 0 chunk.reverse = [chunk]
      simp [scanSplit]
  | cons l rest ih =>
      intro chunk hG
      have hGl : ∀ c ∈ textOf l, c ≠ '\n' := hG l (List.mem_cons_self l rest)
      have hGr : ∀ l' ∈ rest, ∀ c ∈ textOf l', c ≠ '\n' :=
        fun l' hl' => hG l' (List.mem_cons_of_mem l hl')
      cases l with
      | agent t =>
          have hjc : joinedCont (Line.agent t :: rest)
              = sepR ++ (t ++ joinedCont rest) := by
            rw [joinedCont_cons, sepR_cons]
            simp [renderLine]
          rw [hjc, scanSplit_consume, List.reverse_reverse]
          have hnl : ∀ c ∈ t, c ≠ '\n' := hGl
          have h2 : scanSplit sepR (t ++ joinedCont rest) 0 []
              = splitGoldCont t rest := by
            rw [scanSplit_noNL t (joinedCont rest) [] hnl, List.append_nil]
            exact ih t hGr
          rw [h2]
          rfl
      | caller t =>
          have hjc : joinedCont (Line.caller t :: rest)
              = '\n' :: (("Caller: ".toList ++ t) ++ joinedCont rest) := by
            rw [joinedCont_cons]
            simp [renderLine]
          rw [hjc]
          have hC : "Caller: ".toList = 'C' :: "aller: ".toList := by decide
          have hstep : scanSplit sepR
              ('\n' :: (("Caller: ".toList ++ t) ++ joinedCont rest)) 0 chunk.reverse
              = scanSplit sepR (("Caller: ".toList ++ t) ++ joinedCont rest) 0
                  ('\n' :: chunk.reverse) := by
            apply scanSplit_step_ne
            rw [hC]
            simp only [List.cons_append]
            exact sepR_not_prefix_caller _
          rw [hstep]
          have hnl : ∀ c ∈ "Caller: ".toList ++ t, c ≠ '\n' := by
            intro c hc
            rcases List.mem_append.mp hc with hlab | hmem
            · intro hcc
              subst hcc
              revert hlab
              decide
            · exact hGl c hmem
          rw [scanSplit_noNL ("Caller: ".toList ++ t) (joinedCont rest)
            ('\n' :: chunk.reverse) hnl]
          have hacc : ("Caller: ".toList ++ t).reverse ++ '\n' :: chunk.reverse
              = (chunk ++ '\n' :: ("Caller: ".toList ++ t)).reverse := by
            simp
          rw [hacc, ih (chunk ++ '\n' :: ("Caller: ".toList ++ t)) hGr]
          show splitGoldCont (chunk ++ '\n' :: renderLine (Line.caller t)) rest
              = splitGoldCont chunk (Line.caller t :: rest)
          rfl

theorem splitGoldCont_ne_nil (ls : List Line) : ∀ chunk, splitGoldCont chunk ls ≠ [] := by
  induction ls with
  | nil => intro chunk; simp [splitGoldCont]
  | cons l rest ih =>
      intro chunk
      cases l with
      | agent t => simp [splitGoldCont]
      | caller t =>
          show splitGoldCont (chunk ++ '\n' :: renderLine (Line.caller t)) rest ≠ []
          exact ih _

theorem getLastD_irrel {α : Type} (X : List α) (h : X ≠ []) (d d' : α) :
    X.getLastD d = X.getLastD d' := by
  cases X with
  | nil => exact absurd rfl h
  | cons a t => rw [List.getLastD_cons, List.getLastD_cons]

theorem splitGoldCont_noAgent (ls : List Line) :
    ∀ chunk, (∀ l ∈ ls, isAgent l = false) →
      splitGoldCont chunk ls = [chunk ++ joinedCont ls] := by
  induction ls with
  | nil => intro chunk _; simp [splitGoldCont]
  | cons l rest ih =>
      intro chunk h
      cases l with
      | agent t =>
          have := h (Line.agent t) (List.mem_cons_self _ _)
          simp [isAgent] at this
      | caller t =>
          show splitGoldCont (chunk ++ '\n' :: renderLine (Line.caller t)) rest
              = [chunk ++ joinedCont (Line.caller t :: rest)]
          rw [ih _ (fun l' hl' => h l' (List.mem_cons_of_mem _ hl'))]
          rw [joinedCont_cons]
          simp

theorem splitGoldCont_getLast (pre : List Line) :
    ∀ (chunk t : List Char) (post : List Line),
      (∀ l ∈ post, isAgent l = false) →
      (splitGoldCont chunk (pre ++ Line.agent t :: post)).getLastD []
        = t ++ joinedCont post := by
  induction pre with
  | nil =>
      intro chunk t post hpost
      show (chunk :: splitGoldCont t post).getLastD [] = t ++ joinedCont post
      rw [splitGoldCont_noAgent post t hpost]
      simp [List.getLastD_cons]
  | cons l pre' ih =>
      intro chunk t post hpost
      cases l with
      | agent u =>
          show (chunk :: splitGoldCont u (pre' ++ Line.agent t :: post)).getLastD []
              = t ++ joinedCont post
          rw [List.getLastD_cons,
            getLastD_irrel _ (splitGoldCont_ne_nil _ u) chunk []]
          exact ih u t post hpost
      | caller u =>
          show (splitGoldCont (chunk ++ '\n' :: renderLine (Line.caller u))
              (pre' ++ Line.agent t :: post)).getLastD [] = t ++ joinedCont post
          exact ih _ t post hpost

theorem headD_append_left {α : Type} (a b : List α) (h : a ≠ []) (d : α) :
    (a ++ b).headD d = a.headD d := by
  cases a with
  | nil => exact absurd rfl h
  | cons x t => rfl

theorem getLastD_append_right {α : Type} (a : List α) :
    ∀ (b : List α), b ≠ [] → ∀ d : α, (a ++ b).getLastD d = b.getLastD d := by
  induction a with
  | nil => intro b _ d; rfl
  | cons x t ih =>
      intro b hb d
      rw [List.cons_append, List.getLastD_cons, ih b hb x, getLastD_irrel b hb x d]

theorem renderLine_getLastD (l : Line) (ht : textOf l ≠ []) (d : Char) :
    (renderLine l).getLastD d = (textOf l).getLastD d := by
  cases l with
  | caller t => exact getLastD_append_right _ _ ht d
  | agent t => exact getLastD_append_right _ _ ht d

theorem joinedCont_ne_nil (ls : List Line) (h : ls ≠ []) : joinedCont ls ≠ [] := by
  cases ls with
  | nil => exact absurd rfl h
  | cons l rest => rw [joinedCont_cons]; simp

theorem joinedCont_last_notWS (ls : List Line) :
    ls ≠ [] → (∀ l ∈ ls, GoodText (textOf l)) →
    isWS ((joinedCont ls).getLastD 'x') = false := by
  induction ls with
  | nil => intro h _; exact absurd rfl h
  | cons l rest ih =>
      intro _ hG
      have hGl : GoodText (textOf l) := hG l (List.mem_cons_self _ _)
      cases rest with
      | nil =>
          rw [joinedCont_cons, joinedCont_nil, List.append_nil, List.getLastD_cons,
            renderLine_getLastD l hGl.1 '\n',
            getLastD_irrel _ hGl.1 '\n' ' ']
          exact hGl.2.2
      | cons l' rest' =>
          rw [joinedCont_cons, List.getLastD_cons,
            getLastD_append_right (renderLine l) _
              (joinedCont_ne_nil (l' :: rest') (by simp)) '\n',
            getLastD_irrel _ (joinedCont_ne_nil (l' :: rest') (by simp)) '\n' 'x']
          exact ih (by simp) (fun a ha => hG a (List.mem_cons_of_mem _ ha))

theorem headD_reverse {α : Type} (l : List α) (d : α) :
    l.reverse.headD d = l.getLastD d := by
  induction l with
  | nil => rfl
  | cons a t ih =>
      rw [List.reverse_cons, List.getLastD_cons]
      by_cases ht : t = []
      · subst ht; rfl
      · have hr : t.reverse ≠ [] := by simpa using ht
        rw [headD_append_left _ _ hr d, ih]
        exact getLastD_irrel t ht d a

theorem jsTrim_body (body : List Char) (hne : body ≠ [])
    (hh : isWS (body.headD 'x') = false) (hl : isWS (body.getLastD 'x') = false) :
    jsTrim (body ++ ['\n']) = body := by
  unfold jsTrim
  have h1 : (body ++ ['\n']).dropWhile isWS = body ++ ['\n'] := by
    cases body with
    | nil => exact absurd rfl hne
    | cons c t =>
        have hc : isWS c = false := by simpa using hh
        simp [List.dropWhile_cons, hc]
  rw [h1, List.reverse_append]
  have h2 : body.reverse.dropWhile isWS = body.reverse := by
    cases hbr : body.reverse with
    | nil => rfl
    | cons c t =>
        have hcd : c = body.getLastD 'x' := by
          have hhr := headD_reverse body 'x'
          rw [hbr] at hhr
          simpa using hhr
        have hc : isWS c = false := by rw [hcd]; exact hl
        simp [List.dropWhile_cons, hc]
  have h3 : isWS '\n' = true := by decide
  simp only [List.reverse_cons, List.reverse_nil, List.nil_append, List.cons_append,
    List.dropWhile_cons, h3, if_true]
  rw [h2, List.reverse_reverse]

theorem joinNL_cons (l : Line) (ls : List Line) :
    joinNL (l :: ls) = (renderLine l ++ ['\n']) ++ joinNL ls := by
  simp [joinNL]

theorem joinNL_decomp (rest : List Line) :
    ∀ l0 : Line, joinNL (l0 :: rest) = (renderLine l0 ++ joinedCont rest) ++ ['\n'] := by
  induction rest with
  | nil => intro l0; simp [joinNL, joinedCont]
  | cons l' rest' ih =>
      intro l0
      rw [joinNL_cons, ih l', joinedCont_cons]
      simp

theorem takeWhile_append_all (p : Char → Bool) (t : List Char)
    (h : ∀ c ∈ t, p c = true) (y : List Char) :
    (t ++ y).takeWhile p = t ++ y.takeWhile p := by
  induction t with
  | nil => simp
  | cons c rest ih =>
      have hc : p c = true := h c (List.mem_cons_self _ _)
      rw [List.cons_append, List.takeWhile_cons, if_pos hc,
        ih (fun d hd => h d (List.mem_cons_of_mem _ hd))]
      rfl

theorem scanNL_head (s : List Char) :
    ∀ acc, (scanSplit ['\n'] s 0 acc).headD []
      = acc.reverse ++ s.takeWhile (fun c => !(c == '\n')) := by
  induction s with
  | nil => intro acc; simp [scanSplit]
  | cons c rest ih =>
      intro acc
      by_cases hc : c = '\n'
      · subst hc
        have hpre : (['\n'] : List Char).isPrefixOf ('\n' :: rest) = true :=
          isPrefixOf_append_self ['\n'] rest
        rw [scanSplit]
        simp [hpre, List.takeWhile_cons]
      · have hpref : (['\n'] : List Char).isPrefixOf (c :: rest) = false := by
          show (('\n' == c) && (([] : List Char).isPrefixOf rest)) = false
          have h1 : ('\n' == c) = false := beq_eq_false_iff_ne.mpr (Ne.symm hc)
          simp [h1]
        rw [scanSplit]
        simp only [hpref, Bool.false_eq_true, if_false]
        rw [ih (c :: acc), List.takeWhile_cons]
        have hc2 : (!(c == '\n')) = true := by
          have h1 : (c == '\n') = false := beq_eq_false_iff_ne.mpr hc
          simp [h1]
        rw [if_pos hc2]
        simp

theorem firstLine_concat (t : List Char) (post : List Line)
    (ht : ∀ c ∈ t, c ≠ '\n') :
    firstLine (t ++ joinedCont post) = t := by
  unfold firstLine jsSplit
  rw [scanNL_head (t ++ joinedCont post) []]
  simp only [List.reverse_nil, List.nil_append]
  rw [takeWhile_append_all _ t
    (fun c hc => by
      have h1 : (c == '\n') = false := beq_eq_false_iff_ne.mpr (ht c hc)
      simp [h1])]
  cases post with
  | nil => simp
  | cons l rest =>
      rw [joinedCont_cons, List.takeWhile_cons]
      simp

theorem renderLine_headD_notWS (l : Line) : isWS ((renderLine l).headD 'x') = false := by
  cases l with
  | caller t =>
      have h : (renderLine (Line.caller t)).headD 'x' = 'C' := rfl
      rw [h]
      decide
  | agent t =>
      have h : (renderLine (Line.agent t)).headD 'x' = 'R' := rfl
      rw [h]
      decide

theorem extractLastAgent_joinNL (l0 : Line) (pre' post : List Line) (t : List Char)
    (hG : ∀ l ∈ l0 :: (pre' ++ Line.agent t :: post), GoodText (textOf l))
    (hpost : ∀ l ∈ post, isAgent l = false) :
    extractLastAgent (joinNL (l0 :: (pre' ++ Line.agent t :: post))) = t := by
  have hGrest : ∀ l ∈ pre' ++ Line.agent t :: post, GoodText (textOf l) :=
    fun l hl => hG l (List.mem_cons_of_mem _ hl)
  have hGl0 : GoodText (textOf l0) := hG l0 (List.mem_cons_self _ _)
  have hAgentMem : Line.agent t ∈ pre' ++ Line.agent t :: post :=
    List.mem_append_right _ (List.mem_cons_self _ _)
  have hGt : GoodText t := by simpa [textOf] using hGrest _ hAgentMem
  have hrestne : pre' ++ Line.agent t :: post ≠ [] := by
    intro hcc
    exact absurd (List.append_eq_nil.mp hcc).2 (by simp)
  unfold extractLastAgent
  rw [joinNL_decomp (pre' ++ Line.agent t :: post) l0]
  rw [jsTrim_body (renderLine l0 ++ joinedCont (pre' ++ Line.agent t :: post))
    (by
      intro hcc
      exact renderLine_ne_nil l0 (List.append_eq_nil.mp hcc).1)
    (by
      rw [headD_append_left _ _ (renderLine_ne_nil l0)]
      exact renderLine_headD_notWS l0)
    (by
      rw [getLastD_append_right _ _ (joinedCont_ne_nil _ hrestne)]
      exact joinedCont_last_notWS _ hrestne hGrest)]
  have hsplit2 : jsSplit sepR (renderLine l0 ++ joinedCont (pre' ++ Line.agent t :: post))
      = splitGoldCont (renderLine l0) (pre' ++ Line.agent t :: post) := by
    unfold jsSplit
    have hnl0 : ∀ c ∈ renderLine l0, c ≠ '\n' :=
      renderLine_noNL l0 (fun c hc => hGl0.2.1 c hc)
    rw [scanSplit_noNL (renderLine l0) _ [] hnl0, List.append_nil]
    exact scanSplit_joinedCont _ (renderLine l0)
      (fun l hl c hc => (hGrest l hl).2.1 c hc)
  rw [hsplit2, splitGoldCont_getLast pre' (renderLine l0) t post hpost]
  exact firstLine_concat t post (fun c hc => hGt.2.1 c hc)

theorem joinNL_append (a b : List Line) : joinNL (a ++ b) = joinNL a ++ joinNL b := by
  simp [joinNL]

theorem runMsgs (k : Bool) (msgs : List Msg) :
    ∀ s : SessState, s.result = none →
    (List.foldl (sessStep k) s (msgs.map SEvent.msg)).result = none
    ∧ (List.foldl (sessStep k) s (msgs.map SEvent.msg)).transcript
        = s.transcript ++ joinNL (linesOf msgs) := by
  induction msgs with
  | nil => intro s h; simp [linesOf, joinNL, h]
  | cons m rest ih =>
      intro s h
      simp only [List.map_cons, List.foldl_cons]
      have hstep : (sessStep k s (SEvent.msg m)).result = none
          ∧ (sessStep k s (SEvent.msg m)).transcript
            = s.transcript ++ joinNL (linesOf [m]) := by
        by_cases h1 : truthy m.input = true <;>
          by_cases h2 : truthy m.text = true <;>
            by_cases h3 : truthy m.detectedLanguage = true <;>
              by_cases h4 : (truthy m.input && k) = true <;>
                simp_all [sessStep, linesOf, joinNL, renderLine]
      obtain ⟨hr, ht⟩ := hstep
      obtain ⟨hr2, ht2⟩ := ih (sessStep k s (SEvent.msg m)) hr
      refine ⟨hr2, ?_⟩
      rw [ht2, ht]
      have hl : linesOf (m :: rest) = linesOf [m] ++ linesOf rest := by
        simp [linesOf]
      rw [hl, joinNL_append, List.append_assoc]

/-- Claim C9 (amended): for every message sequence whose utterance texts are
    non-empty, newline-free and do not end in whitespace, if at least one
    agent utterance occurred and the most recent agent line is not the very
    first transcript line, the summary's `text` field is exactly that
    utterance's text, with no label and no caller text.  (When no agent
    utterance occurred, or when the only agent line opens the transcript,
    the extraction instead keeps the raw first line of the final split
    segment, label included — see the counterexample.) -/
theorem claim_C9 (k : Bool) (msgs : List Msg) (pre post : List Line) (t : List Char)
    (hG : ∀ l ∈ linesOf msgs, GoodText (textOf l))
    (hsplit : linesOf msgs = pre ++ Line.agent t :: post)
    (hpre : pre ≠ [])
    (hpost : ∀ l ∈ post, isAgent l = false) :
    ((runSession k (msgs.map SEvent.msg ++ [SEvent.closeEv])).result).map Summary.text
      = some t := by
  obtain ⟨l0, pre', rfl⟩ : ∃ l0 pre', pre = l0 :: pre' := by
    cases pre with
    | nil => exact absurd rfl hpre
    | cons a b => exact ⟨a, b, rfl⟩
  unfold runSession
  rw [List.foldl_append]
  obtain ⟨hr, ht⟩ := runMsgs k msgs initSessState rfl
  have hclose : (sessStep k
      (List.foldl (sessStep k) initSessState (msgs.map SEvent.msg))
      SEvent.closeEv).result.map Summary.text
      = some (extractLastAgent
          (List.foldl (sessStep k) initSessState (msgs.map SEvent.msg)).transcript) := by
    simp [sessStep, hr]
  simp only [List.foldl_cons, List.foldl_nil]
  rw [hclose, ht]
  rw [hsplit] at hG
  show some (extractLastAgent ([] ++ joinNL (linesOf msgs))) = some t
  rw [List.nil_append, hsplit]
  exact congrArg some (extractLastAgent_joinNL l0 pre' post t hG hpost)

/-- Claim C9, counterexample to the claim as stated: when the agent speaks
    first and is the only agent line, the extracted text keeps the
    `Receptionist: ` label (the separator never matches a line at the very
    start of the transcript). -/
theorem claim_C9_cex :
    ((runSession true [SEvent.msg
        ({ input := none, text := some "hello", detectedLanguage := none : Msg }),
        SEvent.closeEv]).result).map Summary.text
      = some ("Receptionist: hello".toList)
    ∧ "Receptionist: hello".toList ≠ "hello".toList := by
  constructor
  · decide
  · decide

/-- Claim C9, witness: a caller line followed by an agent line yields
    exactly the agent utterance's text. -/
theorem claim_C9_witness :
    ((runSession true (List.map SEvent.msg
        [{ input := some "hi there", text := none, detectedLanguage := none },
         { input := none, text := some "welcome", detectedLanguage := none }]
      ++ [SEvent.closeEv])).result).map Summary.text
      = some ("welcome".toList) := by
  refine claim_C9 true
    [{ input := some "hi there", text := none, detectedLanguage := none },
     { input := none, text := some "welcome", detectedLanguage := none }]
    [Line.caller ("hi there".toList)] [] ("welcome".toList) ?_ (by decide)
    (by simp) (by simp)
  intro l hl
  have hlines : linesOf
      [{ input := some "hi there", text := none, detectedLanguage := none },
       { input := none, text := some "welcome", detectedLanguage := none }]
      = [Line.caller ("hi there".toList), Line.agent ("welcome".toList)] := by decide
  rw [hlines] at hl
  simp only [List.mem_cons, List.not_mem_nil, or_false] at hl
  rcases hl with rfl | rfl
  · exact ⟨by decide, by decide, by decide⟩
  · exact ⟨by decide, by decide, by decide⟩
